import Mathlib

/-!
# Verification of the Cloze Overlapper field-distribution engine

Shallow embedding of the add-on's sources (`overlapper.py`, `config.py`,
`batch.py`) and proofs about the spec's claims.  Strings are processed on
`List Char` (Python `str` operations are re-implemented faithfully there);
`String` wrappers mirror the Python signatures.  External collaborators that
are not part of these sources (BeautifulSoup text extraction, `hashlib.md5`,
the ClozeGenerator module, `template.checkModel`) appear as parameters.
-/

namespace ClozeOverlap

/-! ## Python string primitives -/

/-- Decimal digit character, as produced by Python `str` of a digit value. -/
def digitChar : Nat → Char
  | 0 => '0' | 1 => '1' | 2 => '2' | 3 => '3' | 4 => '4'
  | 5 => '5' | 6 => '6' | 7 => '7' | 8 => '8' | _ => '9'

/-- Fuel-driven decimal digit expansion (most significant digit first). -/
def natDigitsAux : Nat → Nat → List Char
  | 0, _ => []
  | fuel+1, n =>
    if n < 10 then [digitChar n]
    else natDigitsAux fuel (n / 10) ++ [digitChar (n % 10)]

/-- Decimal digits of a natural number; the fuel `n + 1` always suffices
because the argument strictly decreases at each recursive call. -/
def natDigits (n : Nat) : List Char := natDigitsAux (n + 1) n

/-- Python `str` of an `int` (decimal, `-` sign for negatives). -/
def intStrC : Int → List Char
  | Int.ofNat n => natDigits n
  | Int.negSucc m => '-' :: natDigits (m + 1)

/-- Value of a digit string (used both to decode digit runs and as the
`int(x)` sort key on regex match groups). -/
def digitsVal (cs : List Char) : Nat :=
  cs.foldl (fun a c => a * 10 + (c.toNat - 48)) 0

/-- Python `int(token)` on an all-digit body with an optional sign, returning
`none` where Python raises `ValueError`.  (Python also tolerates surrounding
whitespace and `_` separators; no such token reaches this parser because
spaces are removed by the caller.) -/
def parseNatChars (cs : List Char) : Option Nat :=
  if cs ≠ [] ∧ cs.all Char.isDigit then some (digitsVal cs) else none

/-- Python `int(token)` for possibly-signed tokens. -/
def parseIntChars (cs : List Char) : Option Int :=
  match cs with
  | [] => none
  | c :: rest =>
    if c = '-' then (parseNatChars rest).map (fun n => -(n : Int))
    else if c = '+' then (parseNatChars rest).map (fun n => (n : Int))
    else (parseNatChars (c :: rest)).map (fun n => (n : Int))

/-- Python `s.split(sep)` for a one-character separator: never returns an
empty list, keeps empty fields. -/
def pySplitC (sep : Char) : List Char → List (List Char)
  | [] => [[]]
  | c :: cs =>
    if c = sep then [] :: pySplitC sep cs
    else
      match pySplitC sep cs with
      | [] => [[c]]
      | p :: ps => (c :: p) :: ps

/-- Python `sep.join(parts)` for a one-character separator. -/
def joinSepC (sep : Char) : List (List Char) → List Char
  | [] => []
  | [p] => p
  | p :: ps => p ++ sep :: joinSepC sep ps

/-- Characters counted as whitespace by Python `str.strip()` (ASCII part). -/
def pySpace (c : Char) : Bool :=
  c = ' ' || c = '\t' || c = '\n' || c = '\r' || c = '\x0b' || c = '\x0c'

/-- Python `str.strip()`. -/
def pyStripC (cs : List Char) : List Char :=
  ((cs.dropWhile pySpace).reverse.dropWhile pySpace).reverse

/-- Model of the external `anki.utils.stripHTML` collaborator: removes HTML
tag spans (entity unescaping is omitted; the settings strings this project
feeds through it contain neither tags nor entities). -/
def stripTagsC : Bool → List Char → List Char
  | _, [] => []
  | true, c :: cs => if c = '>' then stripTagsC false cs else stripTagsC true cs
  | false, c :: cs => if c = '<' then stripTagsC true cs else c :: stripTagsC false cs

/-! ## Settings Codec (`config.py`) -/

/-- Shipped default window vector `dflts = [1, 1, 0]` (config_defaults). -/
def dfltSetsL : List (Option Int) := [some 1, some 1, some 0]

/-- Shipped default option flags `dflto = [False, False, True, False]`. -/
def dfltOptsL : List Bool := [false, false, true, false]

/-- Window-value part of `parseNoteSettings` (config.py lines 66-83): parse
up to three comma tokens, then apply the positional shape rules. -/
def parseWindowValues (settings : List (List Char)) : List (Option Int) :=
  match (settings.take 3).map parseIntChars with
  | [a, some b, c] => [a, some b, c]
  | [some a, b] => [b, some a, b]
  | [some a] => [some 1, some a, some 0]
  | _ => dfltSetsL

/-- Option-flag part of `parseNoteSettings` (config.py lines 85-96). -/
def parseOptionFlags (options : Option (List (List Char))) : List Bool :=
  match options with
  | none => dfltOptsL
  | some os =>
    (List.range 4).map (fun i =>
      match os.get? i with
      | some tok => tok == ['y']
      | none => dfltOptsL.getD i false)

/-- The `lines` local of `parseNoteSettings`:
`stripHTML(html).replace(" ", "").split("|")`. -/
def linesOfC (html : List Char) : List (List Char) :=
  pySplitC '|' ((stripTagsC false html).filter (· ≠ ' '))

/-- The `settings` local of `parseNoteSettings`: `lines[0].split(",")`. -/
def settingsTokensC (html : List Char) : List (List Char) :=
  pySplitC ',' ((linesOfC html).headD [])

/-- The `options` local of `parseNoteSettings`: `lines[1].split(",")` when a
`|` separator was present, else Python `None`. -/
def optionTokensC (html : List Char) : Option (List (List Char)) :=
  if (linesOfC html).length > 1 then some (pySplitC ',' ((linesOfC html).getD 1 []))
  else none

/-- `parseNoteSettings` (config.py lines 50-98) on a character list. -/
def parseNoteSettingsC (html : List Char) : List (Option Int) × List Bool :=
  if linesOfC html = [] then (dfltSetsL, dfltOptsL)
  else if (optionTokensC html).getD [] = [] ∧ settingsTokensC html = [] then
    (dfltSetsL, dfltOptsL)
  else
    (if settingsTokensC html = [] then dfltSetsL
      else parseWindowValues (settingsTokensC html),
      parseOptionFlags (optionTokensC html))

/-- `parseNoteSettings`: return note settings, falling back to defaults. -/
def parseNoteSettings (html : String) : List (Option Int) × List Bool :=
  parseNoteSettingsC html.data

/-- Token of one window value in `createNoteSettings`: `str(i)` for an int,
the literal `all` for `None`. -/
def encSetTok : Option Int → List Char
  | some i => intStrC i
  | none => ['a', 'l', 'l']

/-- Token of one option flag in `createNoteSettings`. -/
def encOptTok (b : Bool) : List Char := if b then ['y'] else ['n']

/-- `createNoteSettings` (config.py lines 101-105) on character lists. -/
def createNoteSettingsC (setopts : List (Option Int) × List Bool) : List Char :=
  joinSepC ',' (setopts.1.map encSetTok) ++ (' ' :: '|' :: ' ' :: [])
    ++ joinSepC ',' (setopts.2.map encOptTok)

/-- `createNoteSettings`: create the plain-text settings string. -/
def createNoteSettings (setopts : List (Option Int) × List Bool) : String :=
  ⟨createNoteSettingsC setopts⟩

/-! ## Cloze regex scanner (`get_cloze_regex` instances)

The pattern `(?s)<ws><pre>(\d+)::((.*?)(::(.*?))?)?<we>` is embedded
directly: lazy matching against the trailing literal means the full content
(group 2) runs to the earliest occurrence of the end wrapper, and the
text/hint split (groups 3/5) happens at the first `::` inside it. -/

/-- One regex match: groups 1 (number token), 2 (full content), 3 (text) and
5 (hint, absent when group 4 did not participate). -/
structure OcMatch where
  num : String
  content : String
  text : String
  hint : Option String
deriving DecidableEq, Repr

/-- Strip a literal from the front of the input, if present. -/
def dropPfx : List Char → List Char → Option (List Char)
  | [], s => some s
  | _ :: _, [] => none
  | p :: ps, c :: cs => if c = p then dropPfx ps cs else none

/-- Split the input at the earliest occurrence of `delim`, returning the part
before it and the part after it. -/
def splitAtSub (delim : List Char) : List Char → Option (List Char × List Char)
  | [] =>
    match dropPfx delim [] with
    | some rest => some ([], rest)
    | none => none
  | c :: cs =>
    match dropPfx delim (c :: cs) with
    | some rest => some ([], rest)
    | none =>
      match splitAtSub delim cs with
      | some (p, rest) => some (c :: p, rest)
      | none => none

/-- Try to match the cloze pattern at the start of `s`; on success return the
match groups and the rest of the input. -/
def matchCloze (ws pre we : List Char) (s : List Char) : Option (OcMatch × List Char) :=
  match dropPfx ws s with
  | none => none
  | some s1 =>
    match dropPfx pre s1 with
    | none => none
    | some s2 =>
      match s2.span Char.isDigit with
      | (digits, s3) =>
        if digits = [] then none
        else
          match dropPfx [':', ':'] s3 with
          | none => none
          | some s4 =>
            match splitAtSub we s4 with
            | none => none
            | some (content, rest) =>
              match splitAtSub [':', ':'] content with
              | some (t, h) =>
                some ({ num := ⟨digits⟩, content := ⟨content⟩, text := ⟨t⟩,
                        hint := some ⟨h⟩ }, rest)
              | none =>
                some ({ num := ⟨digits⟩, content := ⟨content⟩, text := ⟨content⟩,
                        hint := none }, rest)

/-- Left-to-right non-overlapping scan (`re.findall`).  Every step strictly
shortens the input, so fuel `length + 1` always suffices. -/
def findAllAux (ws pre we : List Char) : Nat → List Char → List OcMatch
  | 0, _ => []
  | _ + 1, [] => []
  | fuel + 1, c :: cs =>
    match matchCloze ws pre we (c :: cs) with
    | some (m, rest) => m :: findAllAux ws pre we fuel rest
    | none => findAllAux ws pre we fuel cs

def findAllClozes (ws pre we : List Char) (s : String) : List OcMatch :=
  findAllAux ws pre we (s.data.length + 1) s.data

/-- Matches of the fixed native pattern `(?s)\x7b\x7bc(\d+)::((.*?)(::(.*?))?)?\x7d\x7d`
(overlapper.py line 81). -/
def ankiClozeMatches (s : String) : List OcMatch :=
  findAllClozes ['\x7b', '\x7b'] ['c'] ['\x7d', '\x7d'] s

/-- Matches of the marker pattern built by `get_cloze_regex` at the shipped
default syntax config (`wrapper_start = "\x7b\x7b"`, `wrapper_end = "\x7d\x7d"`,
`prefix = "o"`). -/
def ocClozeMatches (s : String) : List OcMatch :=
  findAllClozes ['\x7b', '\x7b'] ['o'] ['\x7d', '\x7d'] s

/-- Left-to-right substitution of every match (`re.sub`). -/
def substAllAux (ws pre we : List Char) (repl : OcMatch → List Char) :
    Nat → List Char → List Char
  | 0, s => s
  | _ + 1, [] => []
  | fuel + 1, c :: cs =>
    match matchCloze ws pre we (c :: cs) with
    | some (m, rest) => repl m ++ substAllAux ws pre we repl fuel rest
    | none => c :: substAllAux ws pre we repl fuel cs

def substAllClozes (ws pre we : List Char) (repl : OcMatch → List Char) (s : String) :
    String :=
  ⟨substAllAux ws pre we repl (s.data.length + 1) s.data⟩

/-- `re.sub(self.creg, r"\x7b\x7bc\1::\2\x7d\x7d", original)`
(overlapper.py line 189): marker syntax to native cloze syntax. -/
def convertToNative (s : String) : String :=
  substAllClozes ['\x7b', '\x7b'] ['o'] ['\x7d', '\x7d']
    (fun m => '\x7b' :: '\x7b' :: 'c' ::
      (m.num.data ++ ':' :: ':' :: m.content.data ++ ['\x7d', '\x7d'])) s

/-- `re.sub(self.creg, "\x7b\x7b\\1\x7d\x7d", original)` (overlapper.py line
114): the form template with positional placeholders. -/
def formString (s : String) : String :=
  substAllClozes ['\x7b', '\x7b'] ['o'] ['\x7d', '\x7d']
    (fun m => '\x7b' :: '\x7b' :: (m.num.data ++ ['\x7d', '\x7d'])) s

/-! ## Item extraction (`getClozeItems`, `getLineItems`) -/

/-- A clozable unit: one text span, or the tuple of spans of a marker number
with several occurrences. -/
inductive Item where
  | single : String → Item
  | multi : List String → Item
deriving DecidableEq, Repr

/-- Insert before the first strictly greater key (stable insertion). -/
def insertByKey (key : OcMatch → Nat) (x : OcMatch) : List OcMatch → List OcMatch
  | [] => [x]
  | y :: ys => if key x ≤ key y then x :: y :: ys else y :: insertByKey key x ys

/-- Stable sort by a numeric key (Python `list.sort` is stable). -/
def sortByKey (key : OcMatch → Nat) (l : List OcMatch) : List OcMatch :=
  l.foldr (insertByKey key) []

/-- `itertools.groupby(matches, itemgetter(0))`: consecutive runs of equal
marker tokens, each carrying its `item[1]` full-content phrases. -/
def groupRuns : List OcMatch → List (String × List String)
  | [] => []
  | m :: ms =>
    match groupRuns ms with
    | [] => [(m.num, [m.content])]
    | (k, vs) :: rest =>
      if m.num = k then (k, m.content :: vs) :: rest
      else (m.num, [m.content]) :: (k, vs) :: rest

/-- A run becomes a single-text item or a tuple item (overlapper.py lines
220-226). -/
def runToItem (g : String × List String) : Item :=
  match g.2 with
  | [v] => Item.single v
  | vs => Item.multi vs

/-- `getClozeItems` (overlapper.py lines 214-227): sort the matches by the
numeric value of their marker token, group consecutive equal tokens, and
return items plus keys. -/
def getClozeItems (ms : List OcMatch) : List Item × List String :=
  ((groupRuns (sortByKey (fun m => digitsVal m.num.data) ms)).map runToItem,
    (groupRuns (sortByKey (fun m => digitsVal m.num.data) ms)).map (·.1))

/-- C1 claim-side grouping: distinct marker tokens in first-occurrence order,
each gathering all of its matches. -/
def firstOccClozeItems (ms : List OcMatch) : List Item × List String :=
  (((ms.map (·.num)).eraseDups).map
      (fun k => runToItem (k, (ms.filter (fun m => m.num = k)).map (·.content))),
    (ms.map (·.num)).eraseDups)

/-- Specification-side consecutive-run grouping, written by run peeling. -/
def specGroupRuns : List OcMatch → List (String × List String)
  | [] => []
  | m :: ms =>
    (m.num, m.content :: (ms.takeWhile (fun x => x.num = m.num)).map (·.content))
      :: specGroupRuns (ms.dropWhile (fun x => x.num = m.num))
termination_by l => l.length
decreasing_by
  simp only [List.length_cons, Nat.lt_succ_iff]
  exact (List.dropWhile_suffix _).length_le

/-- C1 amended spec: numeric-sorted, run-grouped items and keys. -/
def specClozeItems (ms : List OcMatch) : List Item × List String :=
  ((specGroupRuns (sortByKey (fun m => digitsVal m.num.data) ms)).map runToItem,
    (specGroupRuns (sortByKey (fun m => digitsVal m.num.data) ms)).map (·.1))

/-- The `&nbsp;` entity. -/
def nbspChars : List Char := ['&', 'n', 'b', 's', 'p', ';']

def nbspRunAux : Nat → List Char → Bool
  | 0, _ => false
  | fuel + 1, cs =>
    match dropPfx nbspChars cs with
    | some [] => true
    | some rest => nbspRunAux fuel rest
    | none => false

/-- Whether a line matches the MULTILINE regex `^(&nbsp;)+$`. -/
def nbspRun (cs : List Char) : Bool := nbspRunAux (cs.length + 1) cs

/-- Python `str.splitlines()` restricted to `\n` separators (the extracted
text is `\n`-joined by the collaborator). -/
def pySplitlinesC (cs : List Char) : List (List Char) :=
  if cs = [] then []
  else if cs.getLast? = some '\n' then (pySplitC '\n' cs).dropLast
  else pySplitC '\n' cs

/-- The `re.sub(r"^(&nbsp;)+$", "", text, flags=re.MULTILINE)` of
`getLineItems`: blank out placeholder lines. -/
def removeNbspLinesC (cs : List Char) : List Char :=
  joinSepC '\n' ((pySplitC '\n' cs).map (fun l => if nbspRun l then [] else l))

/-- Post-extraction processing of `getLineItems` (overlapper.py lines
242-245) on the text produced by the BeautifulSoup collaborator. -/
def lineItemsOfTextC (cs : List Char) : List (List Char) :=
  (pySplitlinesC (removeNbspLinesC cs)).filter (fun l => !(pyStripC l).isEmpty)

def lineItemsOfText (text : String) : List String :=
  (lineItemsOfTextC text.data).map (⟨·⟩)

/-- C8 amended spec: one item per line kept verbatim, dropping
`&nbsp;`-placeholder lines and lines that are blank after trimming. -/
def specLineItems (text : String) : List String :=
  ((pySplitC '\n' text.data).filter
    (fun l => !nbspRun l && !(pyStripC l).isEmpty)).map (⟨·⟩)

/-- Python `str.strip()` on strings. -/
def pyStrip (s : String) : String := ⟨pyStripC s.data⟩

/-! ## Markup Reconstructor (`processField`) -/

/-- Python `"".join(parts)`. -/
def strConcat : List String → String
  | [] => ""
  | s :: ss => s ++ strConcat ss

/-- `processField` (overlapper.py lines 296-307). -/
def processField (markup : String) (field : List String) : String :=
  if markup = "div" then
    strConcat (field.map (fun line => "<div>" ++ line ++ "</div>"))
  else
    "<" ++ markup ++ ">"
      ++ strConcat (field.map (fun line => "<li>" ++ line ++ "</li>"))
      ++ "</" ++ markup ++ ">"

/-- C7 claim-side rendering: one generic block container around the whole
sequence, no per-line marker. -/
def paragraphSingleContainer (field : List String) : String :=
  "<div>" ++ strConcat field ++ "</div>"

/-- C7 amended rendering: each line in its own generic block container, no
outer container. -/
def paragraphPerLine : List String → String
  | [] => ""
  | l :: ls => "<div>" ++ l ++ "</div>" ++ paragraphPerLine ls

/-! ## Note model and `ClozeOverlapper` -/

/-- Host note: id plus the ordered named field slots of its note type (the
note's keys coincide with the note type's field list). -/
structure Note where
  id : Nat
  fields : List (String × String)
deriving DecidableEq, Repr

def Note.keys (n : Note) : List String := n.fields.map (·.1)

/-- `note[name]` read access; absent fields yield `""` (as in
`_get_field_value`). -/
def getField (n : Note) (name : String) : String :=
  ((n.fields.find? (fun p => p.1 = name)).map (·.2)).getD ""

/-- `note[name] = v`; the sources only assign to fields present on the note
type, so an absent name is a no-op here. -/
def setField (n : Note) (name v : String) : Note :=
  { n with fields := n.fields.map (fun p => if p.1 = name then (p.1, v) else p) }

/-- `name in note`. -/
def noteMem (n : Note) (name : String) : Bool := n.fields.any (fun p => p.1 = name)

/-- Field-name configuration `config["synced"]["flds"]` (constants module not
among the sources; names per spec §3). -/
def fldOg : String := "Original"

def fldSt : String := "Settings"

def fldFl : String := "Full"

def fldTx : String := "Text"

/-- The name of the `idx`-th per-unit slot, `"Text" + str(idx)`. -/
def textField (i : Nat) : String := ⟨fldTx.data ++ natDigits i⟩

/-- Python `str.replace(pat, "")` for a non-empty pattern. -/
def removeSubAux (pat : List Char) : Nat → List Char → List Char
  | 0, s => s
  | _ + 1, [] => []
  | fuel + 1, c :: cs =>
    match dropPfx pat (c :: cs) with
    | some rest => removeSubAux pat fuel rest
    | none => c :: removeSubAux pat fuel cs

def removeSub (pat s : List Char) : List Char := removeSubAux pat (s.length + 1) s

/-- The continuity loop of `getMaxFields` (`last` accumulator); a field whose
suffix fails `int()` or breaks the `last + 1` chain stops the count. -/
def gmfLoop (p : List Char) : List String → Nat → Nat
  | [], last => last
  | f :: fs, last =>
    match parseIntChars (removeSub p f.data) with
    | none => last
    | some cur => if cur = ((last : Int) + 1) then gmfLoop p fs (last + 1) else last

/-- `getMaxFields` (overlapper.py lines 248-274): number of contiguous
`Text<N>` fields of the note type; `none` models the warn-and-return-False
paths. -/
def getMaxFields (names : List String) (p : String) : Option Nat :=
  let fields := names.filter (fun n => (dropPfx p.data n.data).isSome)
  let actual := gmfLoop p.data fields 0
  if fields.length = 0 ∨ actual = 0 then none
  else if fields.length ≠ actual then none
  else some actual

/-- Python `range(a, b)` as a list. -/
def pyRange (a b : Nat) : List Nat := (List.range b).filter (fun i => a ≤ i)

/-- Set every named field to `""` (each assignment guarded by `name in note`,
which `setField` subsumes). -/
def clearFields (note : Note) (names : List String) : Note :=
  names.foldl (fun nt nm => setField nt nm "") note

/-- External collaborators of `add`: the BeautifulSoup queries of
`getLineItems`, and the whole generation tail from the `ClozeGenerator` call
through `updateNote` (the generator module is not among the sources, so the
tail is a parameter; the detected markup style reaches it through object
state).  Claims about the early-classified modes are proved for every
environment. -/
structure AddEnv where
  getText : String → String
  hasOl : String → Bool
  hasUl : String → Bool
  gen : (List (Option Int) × List Bool) → Nat → Bool → Option String → List Item →
    Option (List String) → Note → (Bool × Option Nat) × Note

/-- Markup detection of `getLineItems` (overlapper.py lines 236-241). -/
def detectMarkup (env : AddEnv) (html : String) : String :=
  if env.hasOl html then "ol" else if env.hasUl html then "ul" else "div"

/-- `getLineItems` (overlapper.py lines 229-246): one item per kept line of
the extracted text, plus the detected markup style. -/
def getLineItems (env : AddEnv) (html : String) : List String × String :=
  (lineItemsOfText (env.getText html), detectMarkup env html)

/-- `handleRegularCloze` (overlapper.py lines 155-177): clear every per-unit
slot, the aggregate slot and the settings slot; Original is left as is. -/
def handleRegularCloze (note : Note) : Note :=
  setField
    (setField
      (match getMaxFields note.keys fldTx with
        | some m => clearFields note ((pyRange 0 m).map (fun idx => textField (idx + 1)))
        | none => note)
      fldFl "")
    fldSt ""

/-- First step of `handleSingleOverlappingCloze`: write the converted content
into the first per-unit slot (guarded by `text1_field in note`). -/
def writeText1 (note : Note) (original : String) : Note :=
  if noteMem note (textField 1) then setField note (textField 1) (convertToNative original)
  else note

/-- `handleSingleOverlappingCloze` (overlapper.py lines 179-212). -/
def handleSingleOverlappingCloze (note : Note) (original : String) : Note :=
  setField
    (setField
      (match getMaxFields (writeText1 note original).keys fldTx with
        | some m =>
          clearFields (writeText1 note original)
            ((pyRange 1 m).map (fun idx => textField (idx + 1)))
        | none => writeText1 note original)
      fldFl "")
    fldSt "single"

/-- Tail of `add` shared by the multi-cloze and implicit-list paths
(overlapper.py lines 121-153): the empty-items guard, settings parsing and
capacity validation, then the abstracted generation and write-back. -/
def addTail (env : AddEnv) (custom : Bool) (formstr : Option String) (items : List Item)
    (keys : Option (List String)) (note : Note) : (Bool × Option Nat) × Note :=
  if items = [] then ((false, none), note)
  else
    match getMaxFields note.keys fldTx with
    | none => ((false, none), note)
    | some maxfields =>
      env.gen (parseNoteSettings (getField note fldSt)) maxfields custom formstr items
        keys note

/-- `ClozeOverlapper.add` (overlapper.py lines 71-153). -/
def add (env : AddEnv) (note : Note) : (Bool × Option Nat) × Note :=
  if getField note fldOg = "" then ((false, none), note)
  else if ankiClozeMatches (getField note fldOg) ≠ []
      ∧ ocClozeMatches (getField note fldOg) ≠ [] then
    ((false, none), note)
  else if ankiClozeMatches (getField note fldOg) ≠ [] then
    ((true, some (ankiClozeMatches (getField note fldOg)).length), handleRegularCloze note)
  else if ocClozeMatches (getField note fldOg) ≠ [] then
    if ((ocClozeMatches (getField note fldOg)).map (·.num)).eraseDups.length = 1 then
      ((true, some 1), handleSingleOverlappingCloze note (getField note fldOg))
    else
      addTail env true (some (formString (getField note fldOg)))
        (getClozeItems (ocClozeMatches (getField note fldOg))).1
        (some (getClozeItems (ocClozeMatches (getField note fldOg))).2) note
  else
    addTail env false none
      ((getLineItems env (getField note fldOg)).1.map Item.single) none note

/-- A concrete environment for closed evaluations: plain text passes through
the extractor unchanged (BeautifulSoup is the identity on tag-free text) and
the generation tail reports failure. -/
def defaultEnv : AddEnv where
  getText := id
  hasOl := fun _ => false
  hasUl := fun _ => false
  gen := fun _ _ _ _ _ _ note => ((false, none), note)

/-! ## Change Detector and Batch Coordinator (`batch.py`) -/

/-- External collaborators of the batch layer: the digest function
(`hashlib.md5`) and `template.checkModel` (not among the sources). -/
structure BatchEnv where
  aenv : AddEnv
  hashFn : String → String
  checkModel : Note → Bool

/-- `_compute_note_hash` (batch.py lines 98-103). -/
def computeNoteHash (hashFn : String → String) (note : Note) : String :=
  hashFn (getField note fldOg ++ "|" ++ getField note fldSt)

/-- `stored_hashes.get(str(nid))` on the association-list model of the
persisted map. -/
def lookupHash (stored : List (Nat × String)) (nid : Nat) : Option String :=
  (stored.find? (fun q => q.1 = nid)).map (·.2)

/-- `stored_hashes[str(nid)] = v`. -/
def storeHash (stored : List (Nat × String)) (nid : Nat) (v : String) :
    List (Nat × String) :=
  if (stored.find? (fun q => q.1 = nid)).isSome then
    stored.map (fun q => if q.1 = nid then (q.1, v) else q)
  else stored ++ [(nid, v)]

/-- `_needs_regeneration` (batch.py lines 66-95). -/
def needsRegeneration (hashFn : String → String) (note : Note)
    (stored : List (Nat × String)) : Bool :=
  if pyStrip (getField note fldOg) = "" then false
  else if pyStrip (getField note fldSt) = "" then true
  else !(lookupHash stored note.id == some (computeNoteHash hashFn note))

/-- Per-record body of the `regenerateAllClozes` loop (batch.py lines
154-191) acting on the in-memory hash map; the map is flushed to disk once at
batch end. -/
def batchStep (benv : BatchEnv) (stored : List (Nat × String)) (note : Note) :
    List (Nat × String) :=
  if !benv.checkModel note then stored
  else if !needsRegeneration benv.hashFn note stored then stored
  else
    match add benv.aenv note with
    | ((ret, _), note2) =>
      if ret then storeHash stored note.id (computeNoteHash benv.hashFn note2)
      else stored

/-- The `regenerateAllClozes` iteration over the queried notes (progress
reporting and persistence are outside the model). -/
def regenerateAll (benv : BatchEnv) (stored : List (Nat × String))
    (notes : List Note) : List (Nat × String) :=
  notes.foldl (batchStep benv) stored

/-- `regenerateSingleNote` (batch.py lines 203-243): success flag and the
hash store it saves. -/
def regenerateSingleNote (benv : BatchEnv) (stored : List (Nat × String))
    (note : Note) : Bool × List (Nat × String) :=
  if !benv.checkModel note then (false, stored)
  else if !needsRegeneration benv.hashFn note stored then (false, stored)
  else
    match add benv.aenv note with
    | ((ret, _), note2) =>
      if ret then (true, storeHash stored note.id (computeNoteHash benv.hashFn note2))
      else (false, stored)

/-! ## Lemmas about the string primitives -/

theorem digitChar_isDigit (d : Nat) : (digitChar d).isDigit = true := by
  unfold digitChar
  split <;> decide

theorem digitChar_val (d : Nat) (h : d < 10) : (digitChar d).toNat - 48 = d := by
  interval_cases d <;> decide

theorem natDigitsAux_all_digit (f n : Nat) :
    ∀ c ∈ natDigitsAux f n, c.isDigit = true := by
  induction f generalizing n with
  | zero => intro c hc; simp [natDigitsAux] at hc
  | succ f ih =>
    intro c hc
    unfold natDigitsAux at hc
    split at hc
    · simp at hc; subst hc; exact digitChar_isDigit n
    · rcases List.mem_append.mp hc with h1 | h2
      · exact ih _ c h1
      · simp at h2; subst h2; exact digitChar_isDigit (n % 10)

theorem natDigitsAux_ne_nil (f n : Nat) (hf : 0 < f) : natDigitsAux f n ≠ [] := by
  cases f with
  | zero => omega
  | succ f =>
    unfold natDigitsAux
    split
    · simp
    · simp

theorem digitsVal_append_digit (xs : List Char) (c : Char) :
    digitsVal (xs ++ [c]) = digitsVal xs * 10 + (c.toNat - 48) := by
  simp [digitsVal, List.foldl_append]

theorem natDigitsAux_val (f : Nat) : ∀ n, n < f → digitsVal (natDigitsAux f n) = n := by
  induction f with
  | zero => intro n h; omega
  | succ f ih =>
    intro n h
    unfold natDigitsAux
    split
    · next h10 =>
      simp [digitsVal]
      exact digitChar_val n h10
    · next h10 =>
      rw [digitsVal_append_digit, ih (n / 10) (by omega), digitChar_val (n % 10) (by omega)]
      omega

theorem natDigits_val (n : Nat) : digitsVal (natDigits n) = n :=
  natDigitsAux_val (n + 1) n (Nat.lt_succ_self n)

theorem natDigits_ne_nil (n : Nat) : natDigits n ≠ [] :=
  natDigitsAux_ne_nil (n + 1) n (Nat.succ_pos n)

theorem natDigits_all_digit (n : Nat) : ∀ c ∈ natDigits n, c.isDigit = true :=
  natDigitsAux_all_digit (n + 1) n

theorem natDigits_inj {a b : Nat} (h : natDigits a = natDigits b) : a = b := by
  have := congrArg digitsVal h
  rwa [natDigits_val, natDigits_val] at this

theorem parseNatChars_natDigits (n : Nat) : parseNatChars (natDigits n) = some n := by
  unfold parseNatChars
  rw [if_pos]
  · rw [natDigits_val]
  · exact ⟨natDigits_ne_nil n, List.all_eq_true.mpr (natDigits_all_digit n)⟩

theorem natDigits_head_digit (n : Nat) {c : Char} {cs : List Char}
    (h : natDigits n = c :: cs) : c.isDigit = true :=
  natDigits_all_digit n c (h ▸ List.mem_cons_self c cs)

theorem parseIntChars_intStr (i : Int) : parseIntChars (intStrC i) = some i := by
  cases i with
  | ofNat n =>
    show parseIntChars (natDigits n) = some (Int.ofNat n)
    obtain ⟨c, cs, hcons⟩ : ∃ c cs, natDigits n = c :: cs := by
      cases hd : natDigits n with
      | nil => exact absurd hd (natDigits_ne_nil n)
      | cons c cs => exact ⟨c, cs, rfl⟩
    have hdig : c.isDigit = true := natDigits_head_digit n hcons
    have hminus : c ≠ '-' := by rintro rfl; simp [Char.isDigit] at hdig
    have hplus : c ≠ '+' := by rintro rfl; simp [Char.isDigit] at hdig
    rw [hcons]
    simp only [parseIntChars]
    rw [if_neg hminus, if_neg hplus, ← hcons, parseNatChars_natDigits]
    rfl
  | negSucc m =>
    show parseIntChars ('-' :: natDigits (m + 1)) = some (Int.negSucc m)
    simp only [parseIntChars]
    simp [parseNatChars_natDigits, Int.negSucc_eq]

/-- Character is none of the separators or markers the settings string
round-trip must not collide with. -/
def charOk (c : Char) : Prop := c ≠ ' ' ∧ c ≠ ',' ∧ c ≠ '|' ∧ c ≠ '<'

/-- All characters of a token are separator-free. -/
def tokOk (t : List Char) : Prop := ∀ c ∈ t, charOk c

theorem charOk_of_isDigit {c : Char} (h : c.isDigit = true) : charOk c := by
  refine ⟨?_, ?_, ?_, ?_⟩ <;> rintro rfl <;> simp [Char.isDigit] at h

theorem tokOk_intStr (i : Int) : tokOk (intStrC i) := by
  cases i with
  | ofNat n =>
    intro c hc
    exact charOk_of_isDigit (natDigits_all_digit n c hc)
  | negSucc m =>
    intro c hc
    rcases List.mem_cons.mp hc with rfl | hmem
    · exact ⟨by decide, by decide, by decide, by decide⟩
    · exact charOk_of_isDigit (natDigits_all_digit (m + 1) c hmem)

theorem tokOk_encSetTok (v : Option Int) : tokOk (encSetTok v) := by
  cases v with
  | none =>
    intro c hc
    simp [encSetTok] at hc
    rcases hc with rfl | rfl | rfl <;> exact ⟨by decide, by decide, by decide, by decide⟩
  | some i => exact tokOk_intStr i

theorem tokOk_encOptTok (b : Bool) : tokOk (encOptTok b) := by
  cases b <;> intro c hc <;> simp [encOptTok] at hc <;> subst hc <;>
    exact ⟨by decide, by decide, by decide, by decide⟩

theorem parseIntChars_encSetTok (v : Option Int) :
    parseIntChars (encSetTok v) = v := by
  cases v with
  | none => decide
  | some i => exact parseIntChars_intStr i

theorem encOptTok_beq (b : Bool) : (encOptTok b == ['y']) = b := by
  cases b <;> rfl

/-! ## Split/join lemmas -/

theorem pySplitC_ne_nil (sep : Char) (cs : List Char) : pySplitC sep cs ≠ [] := by
  cases cs with
  | nil => simp [pySplitC]
  | cons c cs =>
    unfold pySplitC
    split
    · simp
    · split <;> simp

theorem pySplitC_no_sep (sep : Char) (cs : List Char) (h : sep ∉ cs) :
    pySplitC sep cs = [cs] := by
  induction cs with
  | nil => rfl
  | cons c cs ih =>
    have hc : c ≠ sep := fun hh => h (hh ▸ List.mem_cons_self c cs)
    have hcs : sep ∉ cs := fun hh => h (List.mem_cons_of_mem c hh)
    unfold pySplitC
    rw [if_neg hc, ih hcs]

theorem pySplitC_append (sep : Char) (a b : List Char) (h : sep ∉ a) :
    pySplitC sep (a ++ sep :: b) = a :: pySplitC sep b := by
  induction a with
  | nil => simp [pySplitC]
  | cons c a ih =>
    have hc : c ≠ sep := fun hh => h (hh ▸ List.mem_cons_self c a)
    have ha : sep ∉ a := fun hh => h (List.mem_cons_of_mem c hh)
    show pySplitC sep (c :: (a ++ sep :: b)) = (c :: a) :: pySplitC sep b
    conv_lhs => rw [pySplitC]
    rw [if_neg hc, ih ha]

theorem pySplit_joinSep (sep : Char) (parts : List (List Char)) (hne : parts ≠ [])
    (h : ∀ p ∈ parts, sep ∉ p) :
    pySplitC sep (joinSepC sep parts) = parts := by
  induction parts with
  | nil => exact absurd rfl hne
  | cons p ps ih =>
    cases ps with
    | nil =>
      show pySplitC sep (joinSepC sep [p]) = [p]
      exact pySplitC_no_sep sep p (h p (List.mem_cons_self p []))
    | cons q r =>
      show pySplitC sep (p ++ sep :: joinSepC sep (q :: r)) = p :: q :: r
      rw [pySplitC_append sep p _ (h p (List.mem_cons_self p _))]
      rw [ih (by simp) (fun x hx => h x (List.mem_cons_of_mem p hx))]

theorem mem_joinSepC {c : Char} {sep : Char} :
    ∀ {parts : List (List Char)}, c ∈ joinSepC sep parts →
      c = sep ∨ ∃ p ∈ parts, c ∈ p := by
  intro parts
  induction parts with
  | nil => intro h; simp [joinSepC] at h
  | cons p ps ih =>
    intro h
    cases ps with
    | nil => exact Or.inr ⟨p, List.mem_cons_self p [], h⟩
    | cons q r =>
      rcases List.mem_append.mp h with h1 | h2
      · exact Or.inr ⟨p, List.mem_cons_self p _, h1⟩
      · rcases List.mem_cons.mp h2 with rfl | h3
        · exact Or.inl rfl
        · rcases ih h3 with h4 | ⟨x, hx, hcx⟩
          · exact Or.inl h4
          · exact Or.inr ⟨x, List.mem_cons_of_mem p hx, hcx⟩

theorem stripTagsC_id (cs : List Char) (h : '<' ∉ cs) : stripTagsC false cs = cs := by
  induction cs with
  | nil => rfl
  | cons c cs ih =>
    have hc : c ≠ '<' := fun hh => h (hh ▸ List.mem_cons_self c cs)
    have hcs : '<' ∉ cs := fun hh => h (List.mem_cons_of_mem c hh)
    unfold stripTagsC
    rw [if_neg hc, ih hcs]

theorem filter_no_space (cs : List Char) (h : ∀ c ∈ cs, c ≠ ' ') :
    cs.filter (· ≠ ' ') = cs := by
  induction cs with
  | nil => rfl
  | cons c cs ih =>
    rw [List.filter_cons, if_pos (by simpa using h c (List.mem_cons_self c cs)),
      ih (fun x hx => h x (List.mem_cons_of_mem c hx))]

theorem joinSep_comma_ok (parts : List (List Char)) (h : ∀ p ∈ parts, tokOk p) :
    ∀ x ∈ joinSepC ',' parts, x ≠ ' ' ∧ x ≠ '|' ∧ x ≠ '<' := by
  intro x hx
  rcases mem_joinSepC hx with rfl | ⟨p, hp, hxp⟩
  · exact ⟨by decide, by decide, by decide⟩
  · obtain ⟨_, _, h3, h4⟩ := h p hp x hxp
    exact ⟨(h p hp x hxp).1, h3, h4⟩

theorem parseWindowValues_enc (a c : Option Int) (b : Int) :
    parseWindowValues [encSetTok a, encSetTok (some b), encSetTok c] = [a, some b, c] := by
  unfold parseWindowValues
  simp [parseIntChars_encSetTok]

theorem parseOptionFlags_enc (o1 o2 o3 o4 : Bool) :
    parseOptionFlags (some ([o1, o2, o3, o4].map encOptTok)) = [o1, o2, o3, o4] := by
  unfold parseOptionFlags
  simp [List.range_succ, encOptTok_beq]

/-- C3 (amended): the settings codec round-trips every structurally valid
pair whose prompt (middle) window value is an integer; the outer window
values may be `None` (encoded as the literal `"all"`). -/
theorem settings_roundtrip_core (a c : Option Int) (b : Int) (o1 o2 o3 o4 : Bool) :
    parseNoteSettings (createNoteSettings ([a, some b, c], [o1, o2, o3, o4])) =
      ([a, some b, c], [o1, o2, o3, o4]) := by
  have hAtoks : ∀ p ∈ [a, some b, c].map encSetTok, tokOk p := by
    intro p hp
    simp at hp
    rcases hp with rfl | rfl | rfl <;> exact tokOk_encSetTok _
  have hBtoks : ∀ p ∈ [o1, o2, o3, o4].map encOptTok, tokOk p := by
    intro p hp
    simp at hp
    rcases hp with rfl | rfl | rfl | rfl <;> exact tokOk_encOptTok _
  have hA := joinSep_comma_ok _ hAtoks
  have hB := joinSep_comma_ok _ hBtoks
  have hAcomma : ∀ p ∈ [a, some b, c].map encSetTok, ',' ∉ p := by
    intro p hp hmem
    exact ((hAtoks p hp) ',' hmem).2.1 rfl
  have hBcomma : ∀ p ∈ [o1, o2, o3, o4].map encOptTok, ',' ∉ p := by
    intro p hp hmem
    exact ((hBtoks p hp) ',' hmem).2.1 rfl
  have hstart :
      parseNoteSettings (createNoteSettings ([a, some b, c], [o1, o2, o3, o4])) =
        parseNoteSettingsC ((joinSepC ',' ([a, some b, c].map encSetTok)
          ++ [' ', '|', ' ']) ++ joinSepC ',' ([o1, o2, o3, o4].map encOptTok)) := rfl
  rw [hstart]
  set A := joinSepC ',' ([a, some b, c].map encSetTok) with hAdef
  set B := joinSepC ',' ([o1, o2, o3, o4].map encOptTok) with hBdef
  have hassoc : (A ++ [' ', '|', ' ']) ++ B = A ++ ' ' :: '|' :: ' ' :: B := by
    rw [List.append_assoc]
    rfl
  rw [hassoc]
  have hnoTag : '<' ∉ A ++ ' ' :: '|' :: ' ' :: B := by
    intro hmem
    rcases List.mem_append.mp hmem with h1 | h2
    · exact (hA '<' h1).2.2 rfl
    · simp only [List.mem_cons] at h2
      rcases h2 with h2 | h2 | h2 | h2
      · exact absurd h2 (by decide)
      · exact absurd h2 (by decide)
      · exact absurd h2 (by decide)
      · exact (hB '<' h2).2.2 rfl
  have hfilter : List.filter (fun x => decide (x ≠ ' ')) (A ++ ' ' :: '|' :: ' ' :: B)
      = A ++ '|' :: B := by
    rw [List.filter_append]
    have hmid : List.filter (fun x => decide (x ≠ ' ')) (' ' :: '|' :: ' ' :: B)
        = '|' :: List.filter (fun x => decide (x ≠ ' ')) B := rfl
    rw [hmid, filter_no_space B (fun x hx => (hB x hx).1),
      filter_no_space A (fun x hx => (hA x hx).1)]
  have hlines : linesOfC (A ++ ' ' :: '|' :: ' ' :: B) = [A, B] := by
    unfold linesOfC
    rw [stripTagsC_id _ hnoTag]
    rw [show ((A ++ ' ' :: '|' :: ' ' :: B).filter (· ≠ ' ')) = A ++ '|' :: B from hfilter]
    rw [pySplitC_append '|' A B (fun hmem => (hA '|' hmem).2.1 rfl),
      pySplitC_no_sep '|' B (fun hmem => (hB '|' hmem).2.1 rfl)]
  have hsetTok : settingsTokensC (A ++ ' ' :: '|' :: ' ' :: B)
      = [a, some b, c].map encSetTok := by
    unfold settingsTokensC
    rw [hlines]
    exact pySplit_joinSep ',' _ (by simp) hAcomma
  have hoptTok : optionTokensC (A ++ ' ' :: '|' :: ' ' :: B)
      = some ([o1, o2, o3, o4].map encOptTok) := by
    unfold optionTokensC
    rw [hlines]
    rw [if_pos (by simp : ([A, B].length) > 1)]
    rw [show ([A, B].getD 1 []) = B from rfl]
    rw [pySplit_joinSep ',' _ (by simp) hBcomma]
  unfold parseNoteSettingsC
  rw [hlines, hsetTok, hoptTok]
  rw [if_neg (by simp)]
  rw [if_neg (by simp)]
  rw [if_neg (by simp)]
  rw [show [a, some b, c].map encSetTok = [encSetTok a, encSetTok (some b), encSetTok c]
    from rfl]
  rw [parseWindowValues_enc, parseOptionFlags_enc]

/-- The window-value component of `parseNoteSettings` is always the
shape-adjusted parse of the first comma tokens: the guards that would return
early can never fire because Python `split` never yields an empty list. -/
theorem parseNoteSettingsC_fst (html : List Char) :
    (parseNoteSettingsC html).1 = parseWindowValues (settingsTokensC html) := by
  have h1 : linesOfC html ≠ [] := pySplitC_ne_nil _ _
  have h2 : settingsTokensC html ≠ [] := pySplitC_ne_nil _ _
  unfold parseNoteSettingsC
  rw [if_neg h1, if_neg (fun h => h2 h.2), if_neg h2]

/-! ## Lemmas about the note model -/

theorem fst_setIf (name v : String) (p : String × String) :
    (if p.1 = name then (p.1, v) else p).1 = p.1 := by
  split <;> rfl

theorem keys_setField (n : Note) (name v : String) :
    (setField n name v).keys = n.keys := by
  unfold setField Note.keys
  simp only [List.map_map]
  exact List.map_congr_left (fun p _ => fst_setIf name v p)

theorem noteMem_setField (n : Note) (name name2 v : String) :
    noteMem (setField n name v) name2 = noteMem n name2 := by
  unfold setField noteMem
  simp only [List.any_map]
  congr 1
  funext p
  simp only [Function.comp_apply, fst_setIf]

theorem getField_absent (n : Note) (name : String) (h : noteMem n name = false) :
    getField n name = "" := by
  unfold getField
  rw [List.find?_eq_none.mpr]
  · rfl
  · intro p hp hc
    unfold noteMem at h
    have h2 : n.fields.any (fun q => q.1 = name) = true :=
      List.any_eq_true.mpr ⟨p, hp, hc⟩
    exact Bool.false_ne_true (h ▸ h2)

theorem getField_setField_same (n : Note) (name v : String) (h : noteMem n name = true) :
    getField (setField n name v) name = v := by
  obtain ⟨nid, fs⟩ := n
  unfold noteMem at h
  unfold getField setField
  simp only at h ⊢
  induction fs with
  | nil => cases h
  | cons p rest ih =>
    rw [List.any_cons] at h
    by_cases hp : p.1 = name
    · rw [List.map_cons, List.find?_cons_of_pos _ (by rw [fst_setIf]; simpa using hp)]
      simp [hp]
    · rw [List.map_cons, List.find?_cons_of_neg _ (by rw [fst_setIf]; simpa using hp)]
      apply ih
      rcases Bool.or_eq_true_iff.mp h with h3 | h3
      · exact absurd (of_decide_eq_true h3) hp
      · exact h3

theorem getField_setField_ne (n : Note) (name name2 v : String) (h : name2 ≠ name) :
    getField (setField n name v) name2 = getField n name2 := by
  obtain ⟨nid, fs⟩ := n
  unfold getField setField
  simp only
  induction fs with
  | nil => rfl
  | cons p rest ih =>
    by_cases hp : p.1 = name2
    · have hpn : p.1 ≠ name := fun hc => h (hp.symm.trans hc)
      rw [List.map_cons, List.find?_cons_of_pos _ (by rw [fst_setIf]; simpa using hp),
        List.find?_cons_of_pos _ (by simpa using hp)]
      simp [if_neg hpn]
    · rw [List.map_cons, List.find?_cons_of_neg _ (by rw [fst_setIf]; simpa using hp),
        List.find?_cons_of_neg _ (by simpa using hp)]
      exact ih

theorem setField_absent (n : Note) (name v : String) (h : noteMem n name = false) :
    setField n name v = n := by
  obtain ⟨nid, fs⟩ := n
  unfold noteMem at h
  unfold setField
  simp only at h ⊢
  simp only [Note.mk.injEq, true_and]
  induction fs with
  | nil => rfl
  | cons p rest ih =>
    rw [List.any_cons] at h
    obtain ⟨h1, h2⟩ := Bool.or_eq_false_iff.mp h
    rw [List.map_cons, if_neg (of_decide_eq_false h1), ih h2]

theorem getField_setField_empty (n : Note) (name : String) :
    getField (setField n name "") name = "" := by
  cases hmem : noteMem n name with
  | true => exact getField_setField_same n name "" hmem
  | false =>
    rw [setField_absent n name "" hmem]
    exact getField_absent n name hmem

theorem noteMem_clearFields (note : Note) (names : List String) (nm : String) :
    noteMem (clearFields note names) nm = noteMem note nm := by
  induction names generalizing note with
  | nil => rfl
  | cons n0 rest ih =>
    show noteMem (clearFields (setField note n0 "") rest) nm = _
    rw [ih, noteMem_setField]

theorem getField_clearFields_not_mem (note : Note) (names : List String) (nm : String)
    (h : nm ∉ names) : getField (clearFields note names) nm = getField note nm := by
  induction names generalizing note with
  | nil => rfl
  | cons n0 rest ih =>
    show getField (clearFields (setField note n0 "") rest) nm = _
    rw [ih _ (fun hc => h (List.mem_cons_of_mem n0 hc)),
      getField_setField_ne _ _ _ _
        (fun hc => h (by rw [hc]; exact List.mem_cons_self n0 rest))]

theorem getField_clearFields_mem (note : Note) (names : List String) (nm : String)
    (h : nm ∈ names) : getField (clearFields note names) nm = "" := by
  induction names generalizing note with
  | nil => cases h
  | cons n0 rest ih =>
    show getField (clearFields (setField note n0 "") rest) nm = ""
    by_cases hr : nm ∈ rest
    · exact ih _ hr
    · have hn0 : nm = n0 := by
        rcases List.mem_cons.mp h with h1 | h1
        · exact h1
        · exact absurd h1 hr
      rw [getField_clearFields_not_mem _ _ _ hr, hn0]
      exact getField_setField_empty _ _

/-! ## Claims C3 and C4: settings codec -/

/-- Counterexample to C3 as stated: a pair whose prompt (middle) window value
is `None` (encoded as `"all"`) does not survive the round-trip; decoding
falls back to the whole default vector. -/
theorem settings_roundtrip_none_prompt_cex :
    parseNoteSettings (createNoteSettings
        ([some 1, none, some 0], [false, false, false, false]))
      ≠ ([some 1, none, some 0], [false, false, false, false]) := by
  decide

/-- C4 (amended): the window-value component is always either the whole
default vector or the positional adaptation of the parsed tokens, in which a
non-numeric token in a non-deciding position survives as a `None`
placeholder next to parsed values; the whole-vector fallback happens exactly
when the deciding token (middle of three, first of two, the only one) is
non-numeric. -/
theorem parse_settings_fallback_shape (html : String) :
    (parseNoteSettings html).1 = dfltSetsL
    ∨ (∃ a k c, ((settingsTokensC html.data).take 3).map parseIntChars = [a, some k, c]
        ∧ (parseNoteSettings html).1 = [a, some k, c])
    ∨ (∃ k b, ((settingsTokensC html.data).take 3).map parseIntChars = [some k, b]
        ∧ (parseNoteSettings html).1 = [b, some k, b])
    ∨ (∃ k, ((settingsTokensC html.data).take 3).map parseIntChars = [some k]
        ∧ (parseNoteSettings html).1 = [some 1, some k, some 0]) := by
  have hfst : (parseNoteSettings html).1 = parseWindowValues (settingsTokensC html.data) :=
    parseNoteSettingsC_fst html.data
  have hlen : (((settingsTokensC html.data).take 3).map parseIntChars).length ≤ 3 := by
    rw [List.length_map]
    exact List.length_take_le 3 _
  rcases hps : ((settingsTokensC html.data).take 3).map parseIntChars
    with _ | ⟨x, _ | ⟨y, _ | ⟨z, _ | ⟨w, rest⟩⟩⟩⟩
  · left
    rw [hfst]
    unfold parseWindowValues
    rw [hps]
  · cases x with
    | some k =>
      right; right; right
      exact ⟨k, rfl, by rw [hfst]; unfold parseWindowValues; rw [hps]⟩
    | none =>
      left
      rw [hfst]
      unfold parseWindowValues
      rw [hps]
  · cases x with
    | some k =>
      right; right; left
      exact ⟨k, y, rfl, by
        rw [hfst]; unfold parseWindowValues; rw [hps]; cases y <;> rfl⟩
    | none =>
      left
      rw [hfst]
      unfold parseWindowValues
      rw [hps]
      cases y <;> rfl
  · cases y with
    | some k =>
      right; left
      exact ⟨x, k, z, rfl, by
        rw [hfst]; unfold parseWindowValues; rw [hps]; cases x <;> cases z <;> rfl⟩
    | none =>
      left
      rw [hfst]
      unfold parseWindowValues
      rw [hps]
      cases x <;> cases z <;> rfl
  · rw [hps] at hlen
    simp at hlen

/-- Counterexample to C4 as stated: the field `"x,1,0"` has a non-numeric
token in the first position, yet the parser returns a `None` placeholder next
to the parsed values instead of the whole default vector. -/
theorem parse_settings_partial_none_cex :
    (parseNoteSettings "x,1,0").1 = [none, some 1, some 0]
    ∧ (parseNoteSettings "x,1,0").1 ≠ dfltSetsL := by
  refine ⟨by decide, by decide⟩

/-! ## Claim C1: marker grouping order -/

/-- Prepending one match to a run grouping merges it into the first run
exactly when the marker tokens agree. -/
theorem step_spec (m : OcMatch) (ms : List OcMatch) :
    (match specGroupRuns ms with
      | [] => [(m.num, [m.content])]
      | (k, vs) :: rest =>
        if m.num = k then (k, m.content :: vs) :: rest
        else (m.num, [m.content]) :: (k, vs) :: rest)
      = specGroupRuns (m :: ms) := by
  cases ms with
  | nil => simp [specGroupRuns]
  | cons m2 ms2 =>
    by_cases h : m.num = m2.num
    · simp only [specGroupRuns]
      rw [List.takeWhile_cons_of_pos (by simp [h.symm]),
        List.dropWhile_cons_of_pos (by simp [h.symm])]
      simp only [if_pos h]
      rw [h]
      simp
    · simp only [specGroupRuns]
      rw [List.takeWhile_cons_of_neg (by simp; exact fun hc => h hc.symm),
        List.dropWhile_cons_of_neg (by simp; exact fun hc => h hc.symm)]
      simp only [if_neg h]
      simp [specGroupRuns]

theorem groupRuns_eq_spec (l : List OcMatch) : groupRuns l = specGroupRuns l := by
  induction l with
  | nil => simp [groupRuns, specGroupRuns]
  | cons m ms ih =>
    conv_lhs => rw [groupRuns]
    rw [ih]
    exact step_spec m ms

/-- C1 (amended): `getClozeItems` returns the items and keys obtained by
stably sorting the matches by the numeric value of their marker token (not
by first occurrence) and grouping consecutive runs of equal tokens; a run
with several matches becomes a tuple item, a run with one match a
single-text item. -/
theorem getClozeItems_sorted_grouping (ms : List OcMatch) :
    getClozeItems ms = specClozeItems ms := by
  unfold getClozeItems specClozeItems
  rw [groupRuns_eq_spec]

/-- Counterexample to C1 as stated: with marker 2 occurring before marker 1,
the returned key list is `["1", "2"]` (ascending numeric order), not the
first-occurrence order `["2", "1"]`. -/
theorem getClozeItems_not_first_occurrence_order :
    getClozeItems [⟨"2", "B", "B", none⟩, ⟨"1", "A", "A", none⟩]
      ≠ firstOccClozeItems [⟨"2", "B", "B", none⟩, ⟨"1", "A", "A", none⟩]
    ∧ (getClozeItems [⟨"2", "B", "B", none⟩, ⟨"1", "A", "A", none⟩]).2 = ["1", "2"]
    ∧ (firstOccClozeItems [⟨"2", "B", "B", none⟩, ⟨"1", "A", "A", none⟩]).2
      = ["2", "1"] := by
  refine ⟨by decide, by decide, by decide⟩

/-! ## Claim C8: implicit-list items -/

theorem pySplitC_parts_no_sep (sep : Char) (cs : List Char) :
    ∀ l ∈ pySplitC sep cs, sep ∉ l := by
  induction cs with
  | nil =>
    intro l hl
    simp [pySplitC] at hl
    subst hl
    simp
  | cons c cs ih =>
    intro l hl
    unfold pySplitC at hl
    split at hl
    · rcases List.mem_cons.mp hl with rfl | h2
      · simp
      · exact ih l h2
    · next hc =>
      rcases hsplit : pySplitC sep cs with _ | ⟨p, ps⟩
      · exact absurd hsplit (pySplitC_ne_nil sep cs)
      · rw [hsplit] at hl
        rcases List.mem_cons.mp hl with rfl | h2
        · intro hmem
          rcases List.mem_cons.mp hmem with rfl | h3
          · exact hc rfl
          · exact ih p (by rw [hsplit]; exact List.mem_cons_self p ps) h3
        · exact ih l (by rw [hsplit]; exact List.mem_cons_of_mem p h2)

theorem joinSepC_eq_nil (sep : Char) (parts : List (List Char)) (hne : parts ≠ [])
    (h : joinSepC sep parts = []) : parts = [[]] := by
  cases parts with
  | nil => exact absurd rfl hne
  | cons p ps =>
    cases ps with
    | nil =>
      have : p = [] := h
      rw [this]
    | cons q r =>
      exfalso
      have h2 : p ++ sep :: joinSepC sep (q :: r) = [] := h
      rcases List.append_eq_nil.mp h2 with ⟨_, h3⟩
      cases h3

theorem joinSep_getLast_sep (sep : Char) (parts : List (List Char)) (hne : parts ≠ [])
    (hns : ∀ p ∈ parts, sep ∉ p)
    (h : (joinSepC sep parts).getLast? = some sep) : parts.getLast? = some [] := by
  induction parts with
  | nil => exact absurd rfl hne
  | cons p ps ih =>
    cases ps with
    | nil =>
      exfalso
      have hmem : sep ∈ p := by
        have h2 : sep ∈ p.getLast? := h
        obtain ⟨hp, heq⟩ := List.mem_getLast?_eq_getLast h2
        rw [heq]
        exact List.getLast_mem hp
      exact hns p (List.mem_cons_self p []) hmem
    | cons q r =>
      have hJ : joinSepC sep (p :: q :: r) = p ++ sep :: joinSepC sep (q :: r) := rfl
      rw [hJ, List.getLast?_append_cons] at h
      cases hJ2 : joinSepC sep (q :: r) with
      | nil =>
        have : (q :: r : List (List Char)) = [[]] := joinSepC_eq_nil sep _ (by simp) hJ2
        rw [show (q :: r : List (List Char)) = [[]] from this]
        rfl
      | cons j js =>
        rw [hJ2, List.getLast?_cons_cons] at h
        have := ih (by simp) (fun x hx => hns x (List.mem_cons_of_mem p hx)) (by rw [hJ2]; exact h)
        rw [List.getLast?_cons_cons]
        exact this

theorem filter_dropLast_last_false (p : List Char → Bool) (l : List (List Char))
    (x : List Char) (hl : l.getLast? = some x) (hp : p x = false) :
    List.filter p l.dropLast = List.filter p l := by
  induction l with
  | nil => rfl
  | cons y ys ih =>
    cases ys with
    | nil =>
      have hxy : x = y := by
        have h2 : some y = some x := hl
        exact (Option.some.injEq _ _ ▸ h2).symm
      rw [List.dropLast_single]
      show List.filter p [] = List.filter p [y]
      rw [List.filter_cons, if_neg (by rw [← hxy]; simp [hp])]
    | cons z zs =>
      rw [List.getLast?_cons_cons] at hl
      have ih2 := ih hl
      show List.filter p (y :: (z :: zs).dropLast) = _
      rw [List.filter_cons, List.filter_cons, ih2]

theorem filter_map_blank (parts : List (List Char)) :
    List.filter (fun l => !(pyStripC l).isEmpty)
        (parts.map (fun l => if nbspRun l then [] else l))
      = List.filter (fun l => !nbspRun l && !(pyStripC l).isEmpty) parts := by
  induction parts with
  | nil => rfl
  | cons l ls ih =>
    rw [List.map_cons, List.filter_cons, List.filter_cons]
    by_cases hn : nbspRun l = true
    · rw [if_pos hn]
      rw [if_neg (by decide : ¬((!(pyStripC ([] : List Char)).isEmpty) = true))]
      rw [if_neg (by rw [hn]; simp)]
      exact ih
    · have hn2 : nbspRun l = false := by
        revert hn
        cases nbspRun l <;> simp
      rw [if_neg hn]
      rw [show (!nbspRun l && !(pyStripC l).isEmpty) = (!(pyStripC l).isEmpty) by
        rw [hn2]; simp]
      rw [ih]

/-- C8 (amended): implicit-list extraction returns the kept lines verbatim
(not trimmed): one item per line of the extracted text whose content is not
an `&nbsp;` placeholder and not blank after trimming. -/
theorem lineItems_spec (text : String) : lineItemsOfText text = specLineItems text := by
  unfold lineItemsOfText specLineItems lineItemsOfTextC
  congr 1
  have hnosep : ∀ l ∈ (pySplitC '\n' text.data).map (fun l => if nbspRun l then [] else l),
      '\n' ∉ l := by
    intro l hl
    rcases List.mem_map.mp hl with ⟨l0, hl0, heq⟩
    subst heq
    split
    · simp
    · exact pySplitC_parts_no_sep '\n' text.data l0 hl0
  have hmne : (pySplitC '\n' text.data).map (fun l => if nbspRun l then [] else l) ≠ [] :=
    fun hc => pySplitC_ne_nil '\n' text.data (List.map_eq_nil_iff.mp hc)
  have hsplitJ : pySplitC '\n' (removeNbspLinesC text.data)
      = (pySplitC '\n' text.data).map (fun l => if nbspRun l then [] else l) := by
    unfold removeNbspLinesC
    exact pySplit_joinSep '\n' _ hmne hnosep
  rw [← filter_map_blank]
  unfold pySplitlinesC
  split
  · next hJnil =>
    have hm : (pySplitC '\n' text.data).map (fun l => if nbspRun l then [] else l)
        = [[]] :=
      joinSepC_eq_nil '\n' _ hmne (by unfold removeNbspLinesC at hJnil; exact hJnil)
    rw [hm]
    rfl
  · split
    · next hJne hlast =>
      rw [hsplitJ]
      have hlastm : ((pySplitC '\n' text.data).map
          (fun l => if nbspRun l then [] else l)).getLast? = some [] :=
        joinSep_getLast_sep '\n' _ hmne hnosep
          (by unfold removeNbspLinesC at hlast; exact hlast)
      exact filter_dropLast_last_false _ _ [] hlastm rfl
    · rw [hsplitJ]

/-- Counterexample to C8 as stated: the kept line `" b "` is returned
verbatim, not whitespace-trimmed. -/
theorem lineItems_not_trimmed_cex :
    lineItemsOfText "a\n b " = ["a", " b "]
    ∧ pyStrip " b " ≠ " b " := by
  refine ⟨by decide, by decide⟩

/-! ## Claim C7: paragraph-style markup reconstruction -/

/-- C7 (amended): in Paragraph style (`markup = "div"`) every rendered line
is wrapped in its own generic block container and there is no outer
container. -/
theorem processField_div_per_line (lines : List String) :
    processField "div" lines = paragraphPerLine lines := by
  unfold processField
  rw [if_pos rfl]
  induction lines with
  | nil => rfl
  | cons l ls ih =>
    show ("<div>" ++ l ++ "</div>") ++ strConcat (ls.map _) = _
    rw [ih]
    rfl

/-- Counterexample to C7 as stated: two paragraph lines do not come back as a
single generic block container around the whole sequence. -/
theorem processField_div_not_single_container :
    processField "div" ["a", "b"] = "<div>a</div><div>b</div>"
    ∧ processField "div" ["a", "b"] ≠ paragraphSingleContainer ["a", "b"] := by
  refine ⟨by decide, by decide⟩

/-! ## Field-name facts -/

theorem textField_head (i : Nat) : ((textField i).data.head?) = some 'T' := rfl

theorem textField_ne_og (i : Nat) : textField i ≠ fldOg := fun h => by
  have h2 := congrArg (fun s => s.data.head?) h
  exact absurd (show (some 'T' : Option Char) = some 'O' from h2) (by decide)

theorem textField_ne_fl (i : Nat) : textField i ≠ fldFl := fun h => by
  have h2 := congrArg (fun s => s.data.head?) h
  exact absurd (show (some 'T' : Option Char) = some 'F' from h2) (by decide)

theorem textField_ne_st (i : Nat) : textField i ≠ fldSt := fun h => by
  have h2 := congrArg (fun s => s.data.head?) h
  exact absurd (show (some 'T' : Option Char) = some 'S' from h2) (by decide)

theorem textField_inj {i j : Nat} (h : textField i = textField j) : i = j := by
  have h2 := congrArg (fun s => digitsVal (s.data.drop 4)) h
  have h3 : digitsVal (natDigits i) = digitsVal (natDigits j) := h2
  rwa [natDigits_val, natDigits_val] at h3

theorem mem_pyRange {i a b : Nat} : i ∈ pyRange a b ↔ a ≤ i ∧ i < b := by
  unfold pyRange
  rw [List.mem_filter, List.mem_range]
  simp [and_comm]

/-! ## Claims C2 and C5: pass-through and single-cloze modes -/

/-- C2 (amended): with only native clozes present, `add` succeeds through
`handleRegularCloze`, which clears the aggregate slot, every per-unit slot
and the settings slot, leaving Original untouched (the templates render the
clozes from Original, so nothing is copied into the aggregate slot). -/
theorem add_regular_cloze_pass_through (env : AddEnv) (note : Note) (m : Nat)
    (h1 : ankiClozeMatches (getField note fldOg) ≠ [])
    (h2 : ocClozeMatches (getField note fldOg) = [])
    (hm : getMaxFields note.keys fldTx = some m) :
    add env note
      = ((true, some (ankiClozeMatches (getField note fldOg)).length),
        handleRegularCloze note)
    ∧ getField (add env note).2 fldFl = ""
    ∧ getField (add env note).2 fldSt = ""
    ∧ (∀ i, 1 ≤ i → i ≤ m → getField (add env note).2 (textField i) = "")
    ∧ getField (add env note).2 fldOg = getField note fldOg := by
  have hog : getField note fldOg ≠ "" := fun h => h1 (by rw [h]; rfl)
  have hadd : add env note
      = ((true, some (ankiClozeMatches (getField note fldOg)).length),
        handleRegularCloze note) := by
    unfold add
    rw [if_neg hog, if_neg (fun hc => hc.2 h2), if_pos h1]
  have hres : (add env note).2
      = setField (setField
          (clearFields note ((pyRange 0 m).map (fun idx => textField (idx + 1))))
          fldFl "") fldSt "" := by
    rw [hadd]
    show handleRegularCloze note = _
    unfold handleRegularCloze
    rw [hm]
  refine ⟨hadd, ?_, ?_, ?_, ?_⟩ <;> rw [hres]
  · rw [getField_setField_ne _ fldSt fldFl "" (by decide)]
    exact getField_setField_empty _ _
  · exact getField_setField_empty _ _
  · intro i hi1 him
    rw [getField_setField_ne _ fldSt _ "" (textField_ne_st i),
      getField_setField_ne _ fldFl _ "" (textField_ne_fl i)]
    apply getField_clearFields_mem
    refine List.mem_map.mpr ⟨i - 1, mem_pyRange.mpr ⟨by omega, by omega⟩, ?_⟩
    congr 1
    omega
  · rw [getField_setField_ne _ fldSt fldOg "" (by decide),
      getField_setField_ne _ fldFl fldOg "" (by decide)]
    apply getField_clearFields_not_mem
    intro hmem
    obtain ⟨idx, _, heq⟩ := List.mem_map.mp hmem
    exact textField_ne_og (idx + 1) heq

/-- Counterexample to C2 as stated: in pass-through mode the aggregate (Full)
slot is cleared, not set to the Original content. -/
theorem add_regular_cloze_clears_full_cex :
    ankiClozeMatches (getField ⟨5, [("Original", "\x7b\x7bc1::x\x7d\x7d"),
        ("Settings", "s"), ("Full", "old"), ("Text1", "t")]⟩ fldOg) ≠ []
    ∧ ocClozeMatches (getField ⟨5, [("Original", "\x7b\x7bc1::x\x7d\x7d"),
        ("Settings", "s"), ("Full", "old"), ("Text1", "t")]⟩ fldOg) = []
    ∧ getField (add defaultEnv ⟨5, [("Original", "\x7b\x7bc1::x\x7d\x7d"),
        ("Settings", "s"), ("Full", "old"), ("Text1", "t")]⟩).2 fldFl = ""
    ∧ getField (add defaultEnv ⟨5, [("Original", "\x7b\x7bc1::x\x7d\x7d"),
        ("Settings", "s"), ("Full", "old"), ("Text1", "t")]⟩).2 fldFl
      ≠ getField ⟨5, [("Original", "\x7b\x7bc1::x\x7d\x7d"),
        ("Settings", "s"), ("Full", "old"), ("Text1", "t")]⟩ fldOg := by
  refine ⟨by decide, by decide, by decide, by decide⟩

/-- Witness for C2 at a concrete native-cloze note. -/
theorem add_regular_cloze_pass_through_witness :
    (ankiClozeMatches (getField ⟨5, [("Original", "\x7b\x7bc1::x\x7d\x7d"),
        ("Settings", "s"), ("Full", "old"), ("Text1", "t")]⟩ fldOg) ≠ []
      ∧ ocClozeMatches (getField ⟨5, [("Original", "\x7b\x7bc1::x\x7d\x7d"),
        ("Settings", "s"), ("Full", "old"), ("Text1", "t")]⟩ fldOg) = []
      ∧ getMaxFields (Note.keys ⟨5, [("Original", "\x7b\x7bc1::x\x7d\x7d"),
        ("Settings", "s"), ("Full", "old"), ("Text1", "t")]⟩) fldTx = some 1)
    ∧ (add defaultEnv ⟨5, [("Original", "\x7b\x7bc1::x\x7d\x7d"),
        ("Settings", "s"), ("Full", "old"), ("Text1", "t")]⟩
      = ((true, some (ankiClozeMatches (getField ⟨5,
          [("Original", "\x7b\x7bc1::x\x7d\x7d"), ("Settings", "s"),
            ("Full", "old"), ("Text1", "t")]⟩ fldOg)).length),
        handleRegularCloze ⟨5, [("Original", "\x7b\x7bc1::x\x7d\x7d"),
          ("Settings", "s"), ("Full", "old"), ("Text1", "t")]⟩)
      ∧ getField (add defaultEnv ⟨5, [("Original", "\x7b\x7bc1::x\x7d\x7d"),
          ("Settings", "s"), ("Full", "old"), ("Text1", "t")]⟩).2 fldFl = ""
      ∧ getField (add defaultEnv ⟨5, [("Original", "\x7b\x7bc1::x\x7d\x7d"),
          ("Settings", "s"), ("Full", "old"), ("Text1", "t")]⟩).2 fldSt = ""
      ∧ (∀ i, 1 ≤ i → i ≤ 1 → getField (add defaultEnv ⟨5,
          [("Original", "\x7b\x7bc1::x\x7d\x7d"), ("Settings", "s"),
            ("Full", "old"), ("Text1", "t")]⟩).2 (textField i) = "")
      ∧ getField (add defaultEnv ⟨5, [("Original", "\x7b\x7bc1::x\x7d\x7d"),
          ("Settings", "s"), ("Full", "old"), ("Text1", "t")]⟩).2 fldOg
        = getField ⟨5, [("Original", "\x7b\x7bc1::x\x7d\x7d"), ("Settings", "s"),
          ("Full", "old"), ("Text1", "t")]⟩ fldOg) :=
  ⟨⟨by decide, by decide, by decide⟩,
    add_regular_cloze_pass_through defaultEnv _ 1 (by decide) (by decide) (by decide)⟩

/-- C5: a marker input with exactly one distinct marker number goes through
`handleSingleOverlappingCloze` whatever the before/after settings say: the
converted native-syntax content lands in the first per-unit slot, every other
per-unit slot and the aggregate slot are cleared, and the settings slot gets
the sentinel `"single"`. -/
theorem add_single_overlapping_mode (env : AddEnv) (note : Note) (m : Nat)
    (hoc : ocClozeMatches (getField note fldOg) ≠ [])
    (hanki : ankiClozeMatches (getField note fldOg) = [])
    (huniq : (((ocClozeMatches (getField note fldOg)).map (·.num)).eraseDups).length = 1)
    (hm : getMaxFields note.keys fldTx = some m)
    (ht1 : noteMem note (textField 1) = true)
    (hst : noteMem note fldSt = true) :
    add env note
      = ((true, some 1), handleSingleOverlappingCloze note (getField note fldOg))
    ∧ getField (add env note).2 (textField 1) = convertToNative (getField note fldOg)
    ∧ (∀ i, 2 ≤ i → i ≤ m → getField (add env note).2 (textField i) = "")
    ∧ getField (add env note).2 fldFl = ""
    ∧ getField (add env note).2 fldSt = "single" := by
  have hog : getField note fldOg ≠ "" := fun h => hoc (by rw [h]; rfl)
  have hadd : add env note
      = ((true, some 1), handleSingleOverlappingCloze note (getField note fldOg)) := by
    unfold add
    rw [if_neg hog, if_neg (fun hc => hc.1 hanki), if_neg (fun hc => hc hanki),
      if_pos hoc, if_pos huniq]
  have hw1 : writeText1 note (getField note fldOg)
      = setField note (textField 1) (convertToNative (getField note fldOg)) := by
    unfold writeText1
    rw [if_pos ht1]
  have hkeys : (writeText1 note (getField note fldOg)).keys = note.keys := by
    rw [hw1, keys_setField]
  have hres : (add env note).2
      = setField (setField
          (clearFields (writeText1 note (getField note fldOg))
            ((pyRange 1 m).map (fun idx => textField (idx + 1))))
          fldFl "") fldSt "single" := by
    rw [hadd]
    show handleSingleOverlappingCloze note (getField note fldOg) = _
    unfold handleSingleOverlappingCloze
    rw [hkeys, hm]
  refine ⟨hadd, ?_, ?_, ?_, ?_⟩ <;> rw [hres]
  · rw [getField_setField_ne _ fldSt _ "single" (textField_ne_st 1),
      getField_setField_ne _ fldFl _ "" (textField_ne_fl 1)]
    rw [getField_clearFields_not_mem]
    · rw [hw1]
      exact getField_setField_same note _ _ ht1
    · intro hmem
      obtain ⟨idx, hidx, heq⟩ := List.mem_map.mp hmem
      have := textField_inj heq
      have h1 := (mem_pyRange.mp hidx).1
      omega
  · intro i hi2 him
    rw [getField_setField_ne _ fldSt _ "single" (textField_ne_st i),
      getField_setField_ne _ fldFl _ "" (textField_ne_fl i)]
    apply getField_clearFields_mem
    refine List.mem_map.mpr ⟨i - 1, mem_pyRange.mpr ⟨by omega, by omega⟩, ?_⟩
    congr 1
    omega
  · rw [getField_setField_ne _ fldSt fldFl "single" (by decide)]
    exact getField_setField_empty _ _
  · apply getField_setField_same
    rw [noteMem_setField, noteMem_clearFields, hw1, noteMem_setField]
    exact hst

/-- Witness for C5 at a concrete single-number marker note with two
occurrences of the marker and two per-unit slots. -/
theorem add_single_overlapping_mode_witness :
    (ocClozeMatches (getField ⟨5, [("Original",
          "\x7b\x7bo1::abc\x7d\x7d tail \x7b\x7bo1::d\x7d\x7d"),
        ("Settings", "2,1,2"), ("Full", "old"), ("Text1", "t1"),
        ("Text2", "t2")]⟩ fldOg) ≠ []
      ∧ ankiClozeMatches (getField ⟨5, [("Original",
          "\x7b\x7bo1::abc\x7d\x7d tail \x7b\x7bo1::d\x7d\x7d"),
        ("Settings", "2,1,2"), ("Full", "old"), ("Text1", "t1"),
        ("Text2", "t2")]⟩ fldOg) = []
      ∧ (((ocClozeMatches (getField ⟨5, [("Original",
            "\x7b\x7bo1::abc\x7d\x7d tail \x7b\x7bo1::d\x7d\x7d"),
          ("Settings", "2,1,2"), ("Full", "old"), ("Text1", "t1"),
          ("Text2", "t2")]⟩ fldOg)).map (·.num)).eraseDups).length = 1)
    ∧ (getField (add defaultEnv ⟨5, [("Original",
          "\x7b\x7bo1::abc\x7d\x7d tail \x7b\x7bo1::d\x7d\x7d"),
        ("Settings", "2,1,2"), ("Full", "old"), ("Text1", "t1"),
        ("Text2", "t2")]⟩).2 (textField 1)
        = convertToNative (getField ⟨5, [("Original",
            "\x7b\x7bo1::abc\x7d\x7d tail \x7b\x7bo1::d\x7d\x7d"),
          ("Settings", "2,1,2"), ("Full", "old"), ("Text1", "t1"),
          ("Text2", "t2")]⟩ fldOg)
      ∧ (∀ i, 2 ≤ i → i ≤ 2 → getField (add defaultEnv ⟨5, [("Original",
            "\x7b\x7bo1::abc\x7d\x7d tail \x7b\x7bo1::d\x7d\x7d"),
          ("Settings", "2,1,2"), ("Full", "old"), ("Text1", "t1"),
          ("Text2", "t2")]⟩).2 (textField i) = "")
      ∧ getField (add defaultEnv ⟨5, [("Original",
            "\x7b\x7bo1::abc\x7d\x7d tail \x7b\x7bo1::d\x7d\x7d"),
          ("Settings", "2,1,2"), ("Full", "old"), ("Text1", "t1"),
          ("Text2", "t2")]⟩).2 fldFl = ""
      ∧ getField (add defaultEnv ⟨5, [("Original",
            "\x7b\x7bo1::abc\x7d\x7d tail \x7b\x7bo1::d\x7d\x7d"),
          ("Settings", "2,1,2"), ("Full", "old"), ("Text1", "t1"),
          ("Text2", "t2")]⟩).2 fldSt = "single") :=
  ⟨⟨by decide, by decide, by decide⟩,
    ((add_single_overlapping_mode defaultEnv _ 2 (by decide) (by decide) (by decide)
      (by decide) (by decide) (by decide)).2 : _)⟩

/-! ## Claim C6: mixed syntax fails with no field modification -/

/-- C6: whenever the Original field contains both a native-cloze match and a
marker match, `add` returns `(False, None)` with the note unchanged: the
return happens before any field write or flush. -/
theorem add_mixed_syntax_error (env : AddEnv) (note : Note)
    (h1 : ankiClozeMatches (getField note fldOg) ≠ [])
    (h2 : ocClozeMatches (getField note fldOg) ≠ []) :
    add env note = ((false, none), note) := by
  have hog : getField note fldOg ≠ "" := by
    intro h
    rw [h] at h1
    exact h1 rfl
  unfold add
  rw [if_neg hog, if_pos ⟨h1, h2⟩]

/-- Witness for C6 at a concrete mixed-syntax note. -/
theorem add_mixed_syntax_error_witness :
    (ankiClozeMatches "\x7b\x7bc1::x\x7d\x7d \x7b\x7bo1::y\x7d\x7d" ≠ []
      ∧ ocClozeMatches "\x7b\x7bc1::x\x7d\x7d \x7b\x7bo1::y\x7d\x7d" ≠ [])
    ∧ add defaultEnv
        ⟨5, [("Original", "\x7b\x7bc1::x\x7d\x7d \x7b\x7bo1::y\x7d\x7d"),
          ("Settings", "s"), ("Full", "f"), ("Text1", "t")]⟩
      = ((false, none),
        ⟨5, [("Original", "\x7b\x7bc1::x\x7d\x7d \x7b\x7bo1::y\x7d\x7d"),
          ("Settings", "s"), ("Full", "f"), ("Text1", "t")]⟩) :=
  ⟨⟨by decide, by decide⟩,
    add_mixed_syntax_error defaultEnv _ (by decide) (by decide)⟩

/-! ## Claim C9: fingerprint updated only on successful write-back -/

theorem fst_updIf (nid : Nat) (v : String) (q : Nat × String) :
    (if q.1 = nid then (q.1, v) else q).1 = q.1 := by
  split <;> rfl

theorem find?_fst_stable (nid nid2 : Nat) (v : String) (l : List (Nat × String)) :
    List.find? (fun q => q.1 = nid2) (l.map (fun q => if q.1 = nid then (q.1, v) else q))
      = (List.find? (fun q => q.1 = nid2) l).map
          (fun q => if q.1 = nid then (q.1, v) else q) := by
  induction l with
  | nil => rfl
  | cons p rest ih =>
    by_cases hp : p.1 = nid2
    · rw [List.map_cons, List.find?_cons_of_pos _ (by rw [fst_updIf]; simpa using hp),
        List.find?_cons_of_pos _ (by simpa using hp)]
      rfl
    · rw [List.map_cons, List.find?_cons_of_neg _ (by rw [fst_updIf]; simpa using hp),
        List.find?_cons_of_neg _ (by simpa using hp)]
      exact ih

theorem lookupHash_storeHash_ne (stored : List (Nat × String)) (nid nid2 : Nat)
    (v : String) (h : nid2 ≠ nid) :
    lookupHash (storeHash stored nid v) nid2 = lookupHash stored nid2 := by
  unfold storeHash lookupHash
  split
  · rw [find?_fst_stable]
    cases hf : List.find? (fun q => decide (q.1 = nid2)) stored with
    | none => rfl
    | some q =>
      have hq0 := List.find?_some hf
      have hq : q.1 = nid2 := of_decide_eq_true hq0
      have hqn : ¬(q.1 = nid) := fun hc => h (hq ▸ hc)
      simp [if_neg hqn]
  · rw [List.find?_append]
    have hnone : List.find? (fun q => decide (q.1 = nid2)) [(nid, v)] = none := by
      have : ¬(nid = nid2) := fun hc => h hc.symm
      simp [List.find?, this]
    rw [hnone]
    simp

/-- C9: in the batch path and the single-record path alike, the stored digest
for an id changes only when `ClozeOverlapper.add` returned `True` for that
record, and only at the id of that record; skipped or failed records leave
the map untouched. -/
theorem hash_updated_only_on_success (benv : BatchEnv) (stored : List (Nat × String))
    (note : Note) (nid : Nat)
    (h : lookupHash (batchStep benv stored note) nid ≠ lookupHash stored nid
      ∨ lookupHash (regenerateSingleNote benv stored note).2 nid
          ≠ lookupHash stored nid) :
    (add benv.aenv note).1.1 = true ∧ nid = note.id := by
  rcases hr : add benv.aenv note with ⟨⟨ret, total⟩, note2⟩
  have hbatch : batchStep benv stored note
      = if !benv.checkModel note then stored
        else if !needsRegeneration benv.hashFn note stored then stored
        else if ret then storeHash stored note.id (computeNoteHash benv.hashFn note2)
        else stored := by
    unfold batchStep
    rw [hr]
  have hsingle : (regenerateSingleNote benv stored note).2
      = if !benv.checkModel note then stored
        else if !needsRegeneration benv.hashFn note stored then stored
        else if ret then storeHash stored note.id (computeNoteHash benv.hashFn note2)
        else stored := by
    unfold regenerateSingleNote
    rw [hr]
    split
    · rfl
    · split
      · rfl
      · cases ret <;> rfl
  have hchange : lookupHash
      (if !benv.checkModel note then stored
        else if !needsRegeneration benv.hashFn note stored then stored
        else if ret then storeHash stored note.id (computeNoteHash benv.hashFn note2)
        else stored) nid ≠ lookupHash stored nid := by
    rcases h with h | h
    · rw [hbatch] at h
      exact h
    · rw [hsingle] at h
      exact h
  split at hchange
  · exact absurd rfl hchange
  · split at hchange
    · exact absurd rfl hchange
    · split at hchange
      · next hret =>
        refine ⟨hret, ?_⟩
        by_contra hne
        exact hchange (lookupHash_storeHash_ne stored note.id nid _ hne)
      · exact absurd rfl hchange

/-- Witness for C9: a pass-through note whose regeneration succeeds and
stores a digest under its own id. -/
theorem hash_updated_only_on_success_witness :
    (lookupHash
        (batchStep ⟨defaultEnv, id, fun _ => true⟩ []
          ⟨5, [("Original", "\x7b\x7bc1::x\x7d\x7d"), ("Settings", ""),
            ("Full", "f"), ("Text1", "t")]⟩) 5
      ≠ lookupHash [] 5)
    ∧ ((add (BatchEnv.aenv ⟨defaultEnv, id, fun _ => true⟩)
          ⟨5, [("Original", "\x7b\x7bc1::x\x7d\x7d"), ("Settings", ""),
            ("Full", "f"), ("Text1", "t")]⟩).1.1 = true
      ∧ 5 = (Note.id ⟨5, [("Original", "\x7b\x7bc1::x\x7d\x7d"), ("Settings", ""),
            ("Full", "f"), ("Text1", "t")]⟩)) :=
  ⟨by decide,
    hash_updated_only_on_success ⟨defaultEnv, id, fun _ => true⟩ [] _ 5
      (Or.inl (by decide))⟩

/-! ## Claim C10: whitespace-only Original is skipped -/

/-- C10: a non-empty Original that strips to the empty string makes
`_needs_regeneration` return `False` whatever the Settings field and the
stored digest say, so both regeneration paths skip the note. -/
theorem needs_regeneration_whitespace_false (benv : BatchEnv)
    (stored : List (Nat × String)) (note : Note)
    (_hne : getField note fldOg ≠ "")
    (h2 : pyStrip (getField note fldOg) = "") :
    needsRegeneration benv.hashFn note stored = false
    ∧ batchStep benv stored note = stored
    ∧ regenerateSingleNote benv stored note = (false, stored) := by
  have hreg : needsRegeneration benv.hashFn note stored = false := by
    unfold needsRegeneration
    rw [if_pos h2]
  refine ⟨hreg, ?_, ?_⟩
  · unfold batchStep
    split
    · rfl
    · rw [if_pos (by rw [hreg]; rfl)]
  · unfold regenerateSingleNote
    split
    · rfl
    · rw [if_pos (by rw [hreg]; rfl)]

/-- Witness for C10 at a two-space Original field. -/
theorem needs_regeneration_whitespace_false_witness :
    (getField ⟨5, [("Original", "  "), ("Settings", "1,1,0 | n,n,n,n")]⟩ fldOg ≠ ""
      ∧ pyStrip (getField ⟨5, [("Original", "  "),
          ("Settings", "1,1,0 | n,n,n,n")]⟩ fldOg) = "")
    ∧ (needsRegeneration (BatchEnv.hashFn ⟨defaultEnv, id, fun _ => true⟩)
          ⟨5, [("Original", "  "), ("Settings", "1,1,0 | n,n,n,n")]⟩ [] = false
      ∧ batchStep ⟨defaultEnv, id, fun _ => true⟩ []
          ⟨5, [("Original", "  "), ("Settings", "1,1,0 | n,n,n,n")]⟩ = []
      ∧ regenerateSingleNote ⟨defaultEnv, id, fun _ => true⟩ []
          ⟨5, [("Original", "  "), ("Settings", "1,1,0 | n,n,n,n")]⟩ = (false, [])) :=
  ⟨⟨by decide, by decide⟩,
    needs_regeneration_whitespace_false ⟨defaultEnv, id, fun _ => true⟩ [] _
      (by decide) (by decide)⟩

end ClozeOverlap
